import Mathlib

/-!
Verification development for a sandboxed code-execution engine over an
in-memory knowledge-graph store.

The development shallowly embeds two components:

* the graph store backend (class MockMCPClient in
  src/servers/memory/client.ts): entities are kept in a JavaScript Map
  keyed by entity name (insertion order preserved; set on an existing key
  overwrites the value in place; delete removes the entry), relations in a
  plain array;
* the execution engine (function executeCode in src/executor/sandbox.ts):
  agent scripts run inside a Node vm context whose only bindings are the
  nine memory operations, a capturing console, and enumerated language
  primitives; the vm timeout option bounds only the synchronous evaluation
  performed by runInContext, that is, the portion of the script before its
  first suspension point.

JavaScript Maps are modelled as association lists in insertion order.
Constant discriminator tags (the literal fields type: entity and
type: relation added by the backend) carry no information and are omitted
from the record types. Wall-clock time is modelled abstractly: finite
computation is instantaneous, and the only way a script fails to finish is
an unconditional synchronous infinite loop or an await that never settles.
-/

namespace CodeMode

/-- Entity record stored by the backend (src/servers/memory/types.ts):
a unique name, a free-form type label, and an ordered list of observation
strings. -/
structure EntityWithType where
  name : String
  entityType : String
  observations : List String
deriving DecidableEq, Repr

/-- Directed typed edge between two entity names
(src/servers/memory/types.ts). Referential integrity is not enforced. -/
structure Relation where
  «from» : String
  «to» : String
  relationType : String
deriving DecidableEq, Repr

/-- Aggregate snapshot returned by the read_graph operation. -/
structure Graph where
  entities : List EntityWithType
  relations : List Relation
deriving DecidableEq, Repr

/-- Input record for create_entities (src/servers/memory/types.ts). -/
structure CreateEntityInput where
  name : String
  entityType : String
  observations : List String
deriving DecidableEq, Repr

/-- Input record for add_observations. -/
structure AddObservationInput where
  entityName : String
  contents : List String
deriving DecidableEq, Repr

/-- Per-entity report returned by add_observations. -/
structure AddObservationResult where
  entityName : String
  addedObservations : List String
deriving DecidableEq, Repr

/-- Input record for delete_observations. -/
structure DeleteObservationInput where
  entityName : String
  observations : List String
deriving DecidableEq, Repr

/-- Result shape of search_nodes and open_nodes: matching entities plus an
always-empty relation list (the backend returns relations: [] there). -/
structure SearchResult where
  entities : List EntityWithType
  relations : List Relation
deriving DecidableEq, Repr

/-- Backend state of MockMCPClient: the entity Map (modelled as an
association list in insertion order, names unique) and the relation
array. -/
structure Store where
  entities : List EntityWithType
  relations : List Relation
deriving DecidableEq, Repr

/-- Store with no entities and no relations. -/
def emptyStore : Store := { entities := [], relations := [] }

/-- Lookup in the entity Map: Map.get returns the entry whose key equals
the name (keys are unique, so the first match is the entry). -/
def mapGet (es : List EntityWithType) (name : String) : Option EntityWithType :=
  es.find? (fun e => e.name = name)

/-- Update in the entity Map: Map.set overwrites the value of an existing
key in place, keeping its original insertion position, and otherwise
appends a new entry at the end. -/
def mapSet (es : List EntityWithType) (e : EntityWithType) : List EntityWithType :=
  match es with
  | [] => [e]
  | x :: rest => if x.name = e.name then e :: rest else x :: mapSet rest e

/-- Removal from the entity Map: Map.delete removes the entry with the
given key, if any; keys are unique, so filtering the name out is exact. -/
def mapDelete (es : List EntityWithType) (name : String) : List EntityWithType :=
  es.filter (fun e => !(e.name == name))

/-- In-place mutation entity.observations.push(...contents) performed on
the Map entry with the given name (src/servers/memory/client.ts,
addObservations). -/
def pushObs (es : List EntityWithType) (name : String) (contents : List String) :
    List EntityWithType :=
  es.map (fun e =>
    if e.name = name then { e with observations := e.observations ++ contents } else e)

/-- In-place mutation removing every observation string occurring in the
given list from the Map entry with the given name
(src/servers/memory/client.ts, deleteObservations). -/
def removeObs (es : List EntityWithType) (name : String) (obs : List String) :
    List EntityWithType :=
  es.map (fun e =>
    if e.name = name then
      { e with observations := e.observations.filter (fun o => !(obs.contains o)) }
    else e)

/-- Operation read_graph: returns the entities in Map insertion order and
all relations; the store is not touched (src/servers/memory/client.ts,
readGraph). -/
def readGraph (st : Store) : Graph :=
  { entities := st.entities, relations := st.relations }

/-- Conversion of a create_entities input into the stored record (the
source copies the observations array and adds the constant tag). -/
def toEntity (i : CreateEntityInput) : EntityWithType :=
  { name := i.name, entityType := i.entityType, observations := i.observations }

/-- Operation create_entities: for each input in order, Map.set the built
record under its name (overwriting any existing entity with that name) and
push the raw input onto the created list, which is returned
(src/servers/memory/client.ts, createEntities). -/
def createEntities (st : Store) (inputs : List CreateEntityInput) :
    Store × List CreateEntityInput :=
  match inputs with
  | [] => (st, [])
  | i :: rest =>
    let st1 : Store := { st with entities := mapSet st.entities (toEntity i) }
    let res := createEntities st1 rest
    (res.1, i :: res.2)

/-- Operation create_relations: appends each relation unconditionally
(duplicates allowed) and returns the input list
(src/servers/memory/client.ts, createRelations). -/
def createRelations (st : Store) (rs : List Relation) : Store × List Relation :=
  ({ st with relations := st.relations ++ rs }, rs)

/-- Operation add_observations: for each entry in order, if the named
entity exists, push its contents onto that entity and record a result;
otherwise skip the entry silently (src/servers/memory/client.ts,
addObservations). -/
def addObservations (st : Store) (inputs : List AddObservationInput) :
    Store × List AddObservationResult :=
  match inputs with
  | [] => (st, [])
  | i :: rest =>
    match mapGet st.entities i.entityName with
    | some _ =>
      let st1 : Store := { st with entities := pushObs st.entities i.entityName i.contents }
      let res := addObservations st1 rest
      (res.1, { entityName := i.entityName, addedObservations := i.contents } :: res.2)
    | none => addObservations st rest

/-- Operation delete_entities: for each name in order, Map.delete the
entity and filter out every relation whose from or to field equals the
name; always acknowledges success (src/servers/memory/client.ts,
deleteEntities). -/
def deleteEntities (st : Store) (names : List String) : Store :=
  match names with
  | [] => st
  | n :: rest =>
    deleteEntities
      { entities := mapDelete st.entities n,
        relations := st.relations.filter (fun r => !(r.«from» == n) && !(r.«to» == n)) }
      rest

/-- Operation delete_observations: for each deletion in order, if the
named entity exists, filter the listed strings out of its observation
sequence; no-op otherwise (src/servers/memory/client.ts,
deleteObservations). -/
def deleteObservations (st : Store) (ds : List DeleteObservationInput) : Store :=
  match ds with
  | [] => st
  | d :: rest =>
    match mapGet st.entities d.entityName with
    | some _ =>
      deleteObservations
        { st with entities := removeObs st.entities d.entityName d.observations } rest
    | none => deleteObservations st rest

/-- Operation delete_relations: for each relation in order, removes every
stored relation matching the full triple exactly
(src/servers/memory/client.ts, deleteRelations). -/
def deleteRelations (st : Store) (rs : List Relation) : Store :=
  match rs with
  | [] => st
  | rel :: rest =>
    deleteRelations
      { st with relations :=
          st.relations.filter (fun r =>
            !(r.«from» == rel.«from» && r.«to» == rel.«to» &&
              r.relationType == rel.relationType)) }
      rest

/-- Model of the JavaScript substring test s.includes(sub): sub occurs
contiguously inside s. -/
def strIncludes (s sub : String) : Bool :=
  decide (sub.toList <:+: s.toList)

/-- Model of String.prototype.toLowerCase, mapping each character to lower
case. -/
def jsToLowerCase (s : String) : String :=
  String.mk (s.toList.map Char.toLower)

/-- Match predicate of search_nodes: the lowercased query occurs in the
lowercased name, the lowercased type, or some lowercased observation
(src/servers/memory/client.ts, searchNodes). -/
def entityMatches (q : String) (e : EntityWithType) : Bool :=
  strIncludes (jsToLowerCase e.name) (jsToLowerCase q) ||
  strIncludes (jsToLowerCase e.entityType) (jsToLowerCase q) ||
  e.observations.any (fun o => strIncludes (jsToLowerCase o) (jsToLowerCase q))

/-- Operation search_nodes: filters the entities by the match predicate
and returns them with an empty relation list
(src/servers/memory/client.ts, searchNodes). -/
def searchNodes (st : Store) (q : String) : SearchResult :=
  { entities := st.entities.filter (entityMatches q), relations := [] }

/-- Operation open_nodes: maps each requested name to its Map entry, keeps
the defined results, and extracts the entities, with an empty relation
list (src/servers/memory/client.ts, openNodes). -/
def openNodes (st : Store) (names : List String) : SearchResult :=
  { entities :=
      ((names.map (fun n => mapGet st.entities n)).filter (fun o => o.isSome)).map
        (fun o => o.getD { name := "", entityType := "", observations := [] }),
    relations := [] }

/-- Tool identifiers with their parameters, the closed rendering of the
string-keyed switch in MockMCPClient.callTool
(src/servers/memory/client.ts). -/
inductive MemOp where
  | readGraph : MemOp
  | createEntities (inputs : List CreateEntityInput) : MemOp
  | createRelations (rs : List Relation) : MemOp
  | addObservations (inputs : List AddObservationInput) : MemOp
  | deleteEntities (names : List String) : MemOp
  | deleteObservations (ds : List DeleteObservationInput) : MemOp
  | deleteRelations (rs : List Relation) : MemOp
  | searchNodes (q : String) : MemOp
  | openNodes (names : List String) : MemOp

/-- Value returned by a tool call, one variant per return shape of the
nine operations. -/
inductive ToolResult where
  | graph (g : Graph) : ToolResult
  | created (es : List CreateEntityInput) : ToolResult
  | relationList (rs : List Relation) : ToolResult
  | addResults (rs : List AddObservationResult) : ToolResult
  | ack (success : Bool) (message : Option String) : ToolResult
  | search (r : SearchResult) : ToolResult
deriving DecidableEq, Repr

/-- Semantics of one tool call against the backend store: the switch body
of MockMCPClient.callTool (src/servers/memory/client.ts). The
delete_entities acknowledgement carries the constant success message from
the source; delete_observations and delete_relations acknowledge with a
bare success flag. -/
def toolSem (op : MemOp) (st : Store) : Store × ToolResult :=
  match op with
  | MemOp.readGraph => (st, ToolResult.graph (readGraph st))
  | MemOp.createEntities inputs =>
    ((createEntities st inputs).1, ToolResult.created (createEntities st inputs).2)
  | MemOp.createRelations rs =>
    ((createRelations st rs).1, ToolResult.relationList (createRelations st rs).2)
  | MemOp.addObservations inputs =>
    ((addObservations st inputs).1, ToolResult.addResults (addObservations st inputs).2)
  | MemOp.deleteEntities names =>
    (deleteEntities st names, ToolResult.ack true (some "Entities deleted successfully"))
  | MemOp.deleteObservations ds => (deleteObservations st ds, ToolResult.ack true none)
  | MemOp.deleteRelations rs => (deleteRelations st rs, ToolResult.ack true none)
  | MemOp.searchNodes q => (st, ToolResult.search (searchNodes st q))
  | MemOp.openNodes names => (st, ToolResult.search (openNodes st names))

/-- Diagnostic channels of the capturing console injected into the
context (src/executor/sandbox.ts, sandboxConsole). -/
inductive Channel where
  | log : Channel
  | error : Channel
  | warn : Channel
deriving DecidableEq, Repr

/-- Line prefix added per channel by sandboxConsole
(src/executor/sandbox.ts). -/
def consoleTag : Channel → String
  | Channel.log => ""
  | Channel.error => "[ERROR] "
  | Channel.warn => "[WARN] "

/-- Captured line for one console call: the formatted arguments joined by
a single space, behind the channel prefix (src/executor/sandbox.ts,
sandboxConsole; formatValue is the identity on strings, and scripts are
modelled as passing strings to the console). -/
def fmtLine (ch : Channel) (args : List String) : String :=
  consoleTag ch ++ String.intercalate " " args

/-- Denotation of an agent script as seen by the engine: each constructor
is one observable step of the wrapped async body
(src/executor/sandbox.ts, wrappedCode).

* done: the async body returns, resolving the promise of the IIFE;
* throwErr: the body throws; the async wrapper converts this into a
  rejection that the engine catches;
* emit: one synchronous console call, then the rest of the body;
* call: one awaited tool call; awaiting the (always pending) promise of an
  async tool is a suspension point, and the continuation receives the
  result computed by the backend against the current store;
* spin: an unconditional synchronous infinite loop, which never yields
  control;
* awaitForever: an await of a promise that never settles (the Promise
  constructor is among the injected primitives). -/
inductive Script where
  | done : Script
  | throwErr (msg : String) : Script
  | emit (ch : Channel) (args : List String) (k : Script) : Script
  | call (op : MemOp) (k : ToolResult → Script) : Script
  | spin : Script
  | awaitForever : Script

/-- Way one script evaluation ends. spinSync is divergence inside the
first synchronous segment (before any suspension point), the only
divergence the vm timeout option interrupts; spinAsync is divergence in a
promise continuation after a suspension, which runs outside runInContext
and blocks the event loop forever; never is an await that never
settles. -/
inductive Termination where
  | ok : Termination
  | raise (msg : String) : Termination
  | spinSync : Termination
  | spinAsync : Termination
  | never : Termination
deriving DecidableEq, Repr

/-- Evaluation of a script against the store: captured lines in issue
order, the final store, and the way evaluation ended. The flag records
whether a suspension point has already been passed, distinguishing
divergence that runInContext can interrupt from divergence that escapes
the timeout. Console writes push onto one output array at call time, so
the captured order is the issue order by construction
(src/executor/sandbox.ts, sandboxConsole and executeCode). -/
def run : Script → Store → Bool → List String × Store × Termination
  | Script.done, st, _ => ([], st, Termination.ok)
  | Script.throwErr m, st, _ => ([], st, Termination.raise m)
  | Script.emit ch args k, st, susp =>
    let rest := run k st susp
    (fmtLine ch args :: rest.1, rest.2.1, rest.2.2)
  | Script.call op k, st, _ =>
    run (k (toolSem op st).2) (toolSem op st).1 true
  | Script.spin, st, susp =>
    ([], st, if susp then Termination.spinAsync else Termination.spinSync)
  | Script.awaitForever, st, _ => ([], st, Termination.never)

/-- Diagnostic lines a script issues, in issue order, following the same
evaluation path as run: the reference against which the captured output of
the engine is compared. -/
def scriptLogs : Script → Store → List String
  | Script.done, _ => []
  | Script.throwErr _, _ => []
  | Script.emit ch args k, st => fmtLine ch args :: scriptLogs k st
  | Script.call op k, st => scriptLogs (k (toolSem op st).2) (toolSem op st).1
  | Script.spin, _ => []
  | Script.awaitForever, _ => []

/-- Execution outcome record (src/executor/sandbox.ts, ExecutionResult):
success flag, captured output lines, optional error description, elapsed
milliseconds. -/
structure ExecutionResult where
  success : Bool
  output : List String
  error : Option String
  elapsedMs : Nat
deriving DecidableEq, Repr

/-- Default wall-clock budget of executeCode in milliseconds
(src/executor/sandbox.ts, timeoutMs = 30000). -/
def defaultTimeoutMs : Nat := 30000

/-- Engine semantics (src/executor/sandbox.ts, executeCode). The script
runs as one async unit; the try block catches a rejection of the awaited
promise and reports it as a failed outcome carrying the message and the
output captured so far. The timeout option of runInContext interrupts only
the synchronous evaluation it performs, which is the segment of the script
before its first suspension point: divergence there surfaces as the vm
timeout error after timeoutMs milliseconds. Divergence after a suspension
point runs as a promise continuation outside runInContext, so nothing
interrupts it and the await inside executeCode never settles; likewise for
a script awaiting a promise that never settles. Both cases are modelled by
returning none: executeCode never produces an outcome. Time is abstract:
finite work is instantaneous (elapsedMs 0) and the timeout path takes
exactly the budget. -/
def executeCode (s : Script) (st : Store) (timeoutMs : Nat) : Option ExecutionResult :=
  match (run s st false).2.2 with
  | Termination.ok => some
      { success := true, output := (run s st false).1, error := none, elapsedMs := 0 }
  | Termination.raise m => some
      { success := false, output := (run s st false).1, error := some m, elapsedMs := 0 }
  | Termination.spinSync => some
      { success := false, output := (run s st false).1,
        error := some ("Script execution timed out after " ++ toString timeoutMs ++ "ms"),
        elapsedMs := timeoutMs }
  | Termination.spinAsync => none
  | Termination.never => none

/-- Captured output of one evaluation equals the lines the script issues,
in issue order, independently of whether a suspension point has been
passed. -/
theorem run_fst (s : Script) : ∀ (st : Store) (b : Bool), (run s st b).1 = scriptLogs s st := by
  induction s with
  | done => intro st b; rfl
  | throwErr m => intro st b; rfl
  | emit ch args k ih => intro st b; simp [run, scriptLogs, ih]
  | call op k ih => intro st b; simpa [run, scriptLogs] using ih (toolSem op st).2 (toolSem op st).1 true
  | spin => intro st b; rfl
  | awaitForever => intro st b; rfl

/-- Outcomes produced by the engine always carry the captured lines of
the evaluation as their output field. -/
theorem executeCode_output (s : Script) (st : Store) (t : Nat) (r : ExecutionResult)
    (h : executeCode s st t = some r) : r.output = (run s st false).1 := by
  unfold executeCode at h
  rcases ht : (run s st false).2.2 <;> rw [ht] at h <;> simp only [Option.some.injEq] at h <;>
    first
    | (subst h; rfl)
    | exact absurd h (by simp)

/-- C3: for every script and every fixed sequence of tool responses
(determined here by the store the tool calls run against), the output list
of the outcome returned by executeCode contains exactly the diagnostic
lines the script wrote, in the order the script issued the writes, even
when tool-call awaits suspend execution between writes; suspension never
reorders already-issued lines, because every console call pushes its
formatted line onto the single output array at issue time. -/
theorem claim_C3_output_order (s : Script) (st : Store) (t : Nat) (r : ExecutionResult)
    (h : executeCode s st t = some r) : r.output = scriptLogs s st := by
  rw [executeCode_output s st t r h, run_fst]

/-- Script of the C3 scenario: three diagnostic lines interleaved with two
tool calls. -/
def c3Script : Script :=
  Script.emit Channel.log ["first"] (Script.call MemOp.readGraph (fun _ =>
    Script.emit Channel.log ["second"] (Script.call
      (MemOp.createEntities [{ name := "A", entityType := "T", observations := [] }]) (fun _ =>
        Script.emit Channel.log ["third"] Script.done))))

/-- Witness for C3: the scenario script returns exactly its three lines in
issue order. -/
theorem claim_C3_witness :
    ({ success := true, output := ["first", "second", "third"], error := none,
       elapsedMs := 0 } : ExecutionResult).output = scriptLogs c3Script emptyStore ∧
    scriptLogs c3Script emptyStore = ["first", "second", "third"] :=
  ⟨claim_C3_output_order c3Script emptyStore defaultTimeoutMs
    { success := true, output := ["first", "second", "third"], error := none, elapsedMs := 0 }
    rfl, rfl⟩

/-- C1 counterexample script: a tool call awaited once, followed by an
unconditional infinite loop. The loop runs in a promise continuation after
the suspension point, outside the synchronous evaluation bounded by the vm
timeout option, so nothing aborts it and executeCode never returns an
outcome. -/
def c1Script : Script := Script.call MemOp.readGraph (fun _ => Script.spin)

/-- C1 fails as stated: the counterexample script never completes, yet
with a 50 ms budget executeCode does not abort it and return a timeout
failure; it returns no outcome at all. -/
theorem claim_C1_counterexample :
    (run c1Script emptyStore false).2.2 = Termination.spinAsync ∧
    executeCode c1Script emptyStore 50 = none :=
  ⟨rfl, rfl⟩

/-- C1 amended: the budget aborts exactly the scripts whose synchronous
segment before the first suspension point diverges. Such a script is
reported after timeoutMs milliseconds as a failure carrying the vm timeout
message, every diagnostic line captured up to the abort point, and
elapsedMs equal to the configured budget; this covers the unconditional
infinite loop of the 50 ms scenario. Scripts that diverge only after a
suspension point, or await forever, are never aborted. -/
theorem claim_C1_timeout_scope (s : Script) (st : Store) (t : Nat)
    (h : (run s st false).2.2 = Termination.spinSync) :
    executeCode s st t = some
      { success := false, output := scriptLogs s st,
        error := some ("Script execution timed out after " ++ toString t ++ "ms"),
        elapsedMs := t } := by
  unfold executeCode
  rw [h, run_fst]

/-- Witness for the amended C1: an unconditional infinite loop under a
50 ms budget yields a failure outcome with the timeout error, no output,
and elapsedMs equal to 50. -/
theorem claim_C1_witness :
    executeCode Script.spin emptyStore 50 = some
      { success := false, output := scriptLogs Script.spin emptyStore,
        error := some ("Script execution timed out after " ++ toString 50 ++ "ms"),
        elapsedMs := 50 } ∧
    executeCode Script.spin emptyStore 50 = some
      { success := false, output := [],
        error := some "Script execution timed out after 50ms", elapsedMs := 50 } :=
  ⟨claim_C1_timeout_scope Script.spin emptyStore 50 rfl, rfl⟩

/-- C8: for every outcome produced by executeCode, the error description
is present if and only if the success flag is false; and on an uncaught
failure raised during evaluation, the outcome has success false, output
equal to exactly the lines captured before the failure, and the message of
the failure as its error description. -/
theorem claim_C8_error_iff_failure (s : Script) (st : Store) (t : Nat) (r : ExecutionResult)
    (h : executeCode s st t = some r) :
    (r.error ≠ none ↔ r.success = false) ∧
    (∀ m, (run s st false).2.2 = Termination.raise m →
      r.success = false ∧ r.output = scriptLogs s st ∧ r.error = some m) := by
  unfold executeCode at h
  rcases ht : (run s st false).2.2 <;> rw [ht] at h <;> simp only [Option.some.injEq] at h <;>
    first
    | (subst h; simp [ht, run_fst])
    | exact absurd h (by simp)

/-- Witness for C8: a script that writes one line and then throws yields a
failed outcome whose error holds the thrown message and whose output holds
the line written before the failure. -/
theorem claim_C8_witness :
    (({ success := false, output := ["partial"], error := some "boom",
        elapsedMs := 0 } : ExecutionResult).error ≠ none ↔
      ({ success := false, output := ["partial"], error := some "boom",
         elapsedMs := 0 } : ExecutionResult).success = false) ∧
    (({ success := false, output := ["partial"], error := some "boom",
        elapsedMs := 0 } : ExecutionResult).success = false ∧
      ({ success := false, output := ["partial"], error := some "boom",
         elapsedMs := 0 } : ExecutionResult).output =
        scriptLogs (Script.emit Channel.log ["partial"] (Script.throwErr "boom")) emptyStore ∧
      ({ success := false, output := ["partial"], error := some "boom",
         elapsedMs := 0 } : ExecutionResult).error = some "boom") :=
  ⟨(claim_C8_error_iff_failure (Script.emit Channel.log ["partial"] (Script.throwErr "boom"))
      emptyStore defaultTimeoutMs
      { success := false, output := ["partial"], error := some "boom", elapsedMs := 0 } rfl).1,
   (claim_C8_error_iff_failure (Script.emit Channel.log ["partial"] (Script.throwErr "boom"))
      emptyStore defaultTimeoutMs
      { success := false, output := ["partial"], error := some "boom", elapsedMs := 0 } rfl).2
     "boom" rfl⟩

/-- C9: reading the graph does not mutate the store, so two successive
read_graph tool calls with no intervening mutation return identical
graphs: the same entities with the same names, types, and observation
sequences, and the same relations. -/
theorem claim_C9_readGraph_idempotent (st : Store) :
    (toolSem MemOp.readGraph st).1 = st ∧
    (toolSem MemOp.readGraph ((toolSem MemOp.readGraph st).1)).2 =
      (toolSem MemOp.readGraph st).2 :=
  ⟨rfl, rfl⟩

/-- Lookup after a Map.set: the set key now maps to the new record, every
other key is untouched. -/
theorem mapGet_mapSet (es : List EntityWithType) (e : EntityWithType) (n : String) :
    mapGet (mapSet es e) n = if e.name = n then some e else mapGet es n := by
  induction es with
  | nil =>
    by_cases h : e.name = n <;> simp [mapSet, mapGet, List.find?, h]
  | cons x rest ih =>
    by_cases hx : x.name = e.name
    · by_cases hn : e.name = n
      · simp [mapSet, hx, mapGet, List.find?, hn]
      · have hxn : ¬ x.name = n := by rw [hx]; exact hn
        simp [mapSet, hx, mapGet, List.find?, hn, hxn]
    · by_cases hxn : x.name = n
      · have hen : ¬ e.name = n := fun he => hx (by rw [hxn, he])
        have hne : ¬ n = e.name := fun h => hen h.symm
        simp [mapSet, hx, mapGet, List.find?, hxn, hen, hne]
      · simpa [mapSet, hx, mapGet, List.find?, hxn] using ih


/-- Lookup on a cons cell of the entity list. -/
theorem mapGet_cons (y : EntityWithType) (l : List EntityWithType) (n : String) :
    mapGet (y :: l) n = if y.name = n then some y else mapGet l n := by
  by_cases h : y.name = n <;> simp [mapGet, List.find?, h]

/-- Lookup after an observation push: the named entity carries the
appended observations, every other entry is untouched, and no entry
appears or disappears. -/
theorem mapGet_pushObs (es : List EntityWithType) (name : String) (cs : List String)
    (n : String) :
    mapGet (pushObs es name cs) n =
      if name = n then
        (mapGet es n).map (fun e => { e with observations := e.observations ++ cs })
      else mapGet es n := by
  induction es with
  | nil => by_cases h : name = n <;> simp [pushObs, mapGet, h]
  | cons x rest ih =>
    have hstep : pushObs (x :: rest) name cs =
        (if x.name = name then { x with observations := x.observations ++ cs } else x) ::
          pushObs rest name cs := rfl
    rw [hstep]
    by_cases hxname : x.name = name
    · rw [if_pos hxname, mapGet_cons, mapGet_cons]
      by_cases hxn : x.name = n
      · have hn : name = n := hxname.symm.trans hxn
        simp [hxn, hn]
      · have hn : ¬ name = n := fun h => hxn (hxname.trans h)
        simpa [hxn, hn] using ih
    · rw [if_neg hxname, mapGet_cons, mapGet_cons]
      by_cases hxn : x.name = n
      · have hn : ¬ name = n := fun h => hxname (hxn.trans h.symm)
        simp [hxn, hn]
      · by_cases hn : name = n <;> simpa [hxn, hn] using ih

/-- Observation pushes never create or remove entities. -/
theorem mapGet_pushObs_isSome (es : List EntityWithType) (name : String) (cs : List String)
    (n : String) :
    (mapGet (pushObs es name cs) n).isSome = (mapGet es n).isSome := by
  rw [mapGet_pushObs]
  by_cases h : name = n <;> simp [h]

/-- Lookup after a create_entities call: a name carried by some input maps
to the record built from the last input carrying it (last write wins),
every other name keeps its prior binding. -/
theorem mapGet_createEntities (inputs : List CreateEntityInput) :
    ∀ (st : Store) (n : String),
      mapGet ((createEntities st inputs).1).entities n =
        match (inputs.filter (fun j => j.name == n)).getLast? with
        | some j => some (toEntity j)
        | none => mapGet st.entities n := by
  induction inputs with
  | nil => intro st n; simp [createEntities]
  | cons i rest ih =>
    intro st n
    have hstep : (createEntities st (i :: rest)).1 =
        (createEntities { st with entities := mapSet st.entities (toEntity i) } rest).1 := rfl
    rw [hstep, ih]
    by_cases hp : i.name = n
    · rcases hrest : rest.filter (fun j => j.name == n) with _ | ⟨j, tl⟩
      · simp [List.filter_cons, hp, hrest, mapGet_mapSet, toEntity]
      · rcases hgl : (j :: tl).getLast? with _ | g
        · simp at hgl
        · simp [List.filter_cons, hp, hrest, List.getLast?_cons_cons, hgl]
    · rcases hrest : rest.filter (fun j => j.name == n) with _ | ⟨j, tl⟩
      · simp [List.filter_cons, hp, hrest, mapGet_mapSet, toEntity]
      · rcases hgl : (j :: tl).getLast? with _ | g
        · simp at hgl
        · simp [List.filter_cons, hp, hrest, hgl]

/-- C4: for every createEntities call and every input entity whose name
already exists in the store, the call overwrites the prior entity with the
new type and the new observation sequence, last write among the inputs
winning: after the call the stored record under that name is exactly the
record built from the last input carrying the name, so the prior
observations are fully replaced, not merged. No uniqueness-violation error
exists: the operation is total by construction. -/
theorem claim_C4_last_write_wins (st : Store) (inputs : List CreateEntityInput)
    (i : CreateEntityInput) (hmem : i ∈ inputs)
    (hexists : (mapGet st.entities i.name).isSome = true) :
    mapGet ((createEntities st inputs).1).entities i.name =
      ((inputs.filter (fun j => j.name == i.name)).getLast?).map toEntity := by
  rw [mapGet_createEntities]
  have hfmem : i ∈ inputs.filter (fun j => j.name == i.name) :=
    List.mem_filter.mpr ⟨hmem, by simp⟩
  have hne : inputs.filter (fun j => j.name == i.name) ≠ [] :=
    List.ne_nil_of_mem hfmem
  rcases hgl : (inputs.filter (fun j => j.name == i.name)).getLast? with _ | g
  · exact absurd (List.getLast?_eq_none_iff.mp hgl) hne
  · rw [hgl]
    rfl

/-- Store holding one entity named A with its original type and
observations, used to exercise the overwrite path. -/
def c4Store : Store :=
  { entities := [{ name := "A", entityType := "OldType", observations := ["old1", "old2"] }],
    relations := [] }

/-- Inputs of the C4 witness: two successive inputs for the existing name
A, so the call must keep only the second. -/
def c4Inputs : List CreateEntityInput :=
  [{ name := "A", entityType := "MidType", observations := ["mid"] },
   { name := "A", entityType := "NewType", observations := ["new"] }]

/-- Witness for C4: with an existing entity A and two inputs named A, the
stored record afterwards is built from the last input: new type, new
observations, prior ones gone. -/
theorem claim_C4_witness :
    mapGet ((createEntities c4Store c4Inputs).1).entities "A" =
      ((c4Inputs.filter (fun j => j.name == "A")).getLast?).map toEntity ∧
    ((c4Inputs.filter (fun j => j.name == "A")).getLast?).map toEntity =
      some { name := "A", entityType := "NewType", observations := ["new"] } :=
  ⟨claim_C4_last_write_wins c4Store c4Inputs
      { name := "A", entityType := "NewType", observations := ["new"] } (by decide) rfl,
   rfl⟩

/-- Relations are untouched by add_observations. -/
theorem addObservations_relations (inputs : List AddObservationInput) :
    ∀ st : Store, ((addObservations st inputs).1).relations = st.relations := by
  induction inputs with
  | nil => intro st; rfl
  | cons i rest ih =>
    intro st
    rcases h : mapGet st.entities i.entityName with _ | e <;>
      simp [addObservations, h, ih]

/-- Reported results of add_observations: exactly the entries whose
entity exists, in order, each carrying its contents as
addedObservations. -/
theorem addObservations_results (inputs : List AddObservationInput) :
    ∀ st : Store,
      (addObservations st inputs).2 =
        (inputs.filter (fun i => (mapGet st.entities i.entityName).isSome)).map
          (fun i => { entityName := i.entityName, addedObservations := i.contents }) := by
  induction inputs with
  | nil => intro st; rfl
  | cons i rest ih =>
    intro st
    rcases h : mapGet st.entities i.entityName with _ | e
    · have hfc : (i :: rest).filter (fun i => (mapGet st.entities i.entityName).isSome) =
          rest.filter (fun i => (mapGet st.entities i.entityName).isSome) := by
        simp [List.filter_cons, h]
      simp [addObservations, h, hfc, ih]
    · have hcongr :
          rest.filter (fun j =>
            (mapGet (pushObs st.entities i.entityName i.contents) j.entityName).isSome) =
          rest.filter (fun j => (mapGet st.entities j.entityName).isSome) :=
        List.filter_congr (fun x _ => by rw [mapGet_pushObs_isSome])
      have hfc : (i :: rest).filter (fun i => (mapGet st.entities i.entityName).isSome) =
          i :: rest.filter (fun i => (mapGet st.entities i.entityName).isSome) := by
        simp [List.filter_cons, h]
      rw [hfc]
      simp only [addObservations, h, List.map_cons]
      rw [ih { st with entities := pushObs st.entities i.entityName i.contents }]
      simp [hcongr]

/-- Store contents after add_observations: an existing entity receives
exactly the concatenated contents of the entries naming it, appended in
entry order to its prior observation sequence, with its name and type
unchanged; a name with no entity stays absent; entities not named keep
their record. -/
theorem addObservations_mapGet (inputs : List AddObservationInput) :
    ∀ (st : Store) (n : String),
      mapGet ((addObservations st inputs).1).entities n =
        (mapGet st.entities n).map (fun e =>
          { e with observations :=
              e.observations ++
                ((inputs.filter (fun i => i.entityName == n)).map
                  (fun i => i.contents)).flatten }) := by
  induction inputs with
  | nil =>
    intro st n
    rcases h : mapGet st.entities n with _ | e <;> simp [addObservations, h]
  | cons i rest ih =>
    intro st n
    rcases h : mapGet st.entities i.entityName with _ | e
    · by_cases hn : i.entityName = n
      · have hnone : mapGet st.entities n = none := by rw [← hn]; exact h
        simp [addObservations, h, ih, hnone]
      · have hfc : (i :: rest).filter (fun i => i.entityName == n) =
            rest.filter (fun i => i.entityName == n) := by
          simp [List.filter_cons, hn]
        simp [addObservations, h, ih, hfc]
    · simp only [addObservations, h]
      rw [ih { st with entities := pushObs st.entities i.entityName i.contents } n]
      simp only []
      rw [mapGet_pushObs]
      by_cases hn : i.entityName = n
      · have hfc : (i :: rest).filter (fun i => i.entityName == n) =
            i :: rest.filter (fun i => i.entityName == n) := by
          simp [List.filter_cons, hn]
        rw [if_pos hn, hfc]
        rcases hres : mapGet st.entities n with _ | x
        · simp
        · simp [List.append_assoc]
      · have hfc : (i :: rest).filter (fun i => i.entityName == n) =
            rest.filter (fun i => i.entityName == n) := by
          simp [List.filter_cons, hn]
        rw [if_neg hn, hfc]

/-- C5: for every addObservations call, each entry whose entityName
exists in the store has all its contents strings appended to that entity
observation sequence (in entry order, name and type unchanged) and appears
in the returned results list with exactly those strings as
addedObservations; each entry whose entityName does not exist is silently
skipped: it raises no error, the store stays unchanged for that name, and
the entry does not appear in the results list. Existence of an entity name
is invariant during the call, so filtering against the initial store is
exact. -/
theorem claim_C5_silent_skip (st : Store) (inputs : List AddObservationInput) :
    (addObservations st inputs).2 =
      (inputs.filter (fun i => (mapGet st.entities i.entityName).isSome)).map
        (fun i => { entityName := i.entityName, addedObservations := i.contents }) ∧
    (∀ n, mapGet ((addObservations st inputs).1).entities n =
      (mapGet st.entities n).map (fun e =>
        { e with observations :=
            e.observations ++
              ((inputs.filter (fun i => i.entityName == n)).map
                (fun i => i.contents)).flatten })) ∧
    ((addObservations st inputs).1).relations = st.relations :=
  ⟨addObservations_results inputs st,
   fun n => addObservations_mapGet inputs st n,
   addObservations_relations inputs st⟩

/-- State of the store after delete_entities: exactly the entities whose
name is not listed, in their prior order, and exactly the relations
touching no listed name at either endpoint, in their prior order. -/
theorem deleteEntities_eq (names : List String) :
    ∀ st : Store,
      deleteEntities st names =
        { entities := st.entities.filter (fun e => !(names.contains e.name)),
          relations := st.relations.filter (fun r =>
            !(names.contains r.«from») && !(names.contains r.«to»)) } := by
  induction names with
  | nil =>
    intro st
    cases st
    simp [deleteEntities]
  | cons m rest ih =>
    intro st
    have hstep : deleteEntities st (m :: rest) =
        deleteEntities
          { entities := mapDelete st.entities m,
            relations := st.relations.filter (fun r => !(r.«from» == m) && !(r.«to» == m)) }
          rest := rfl
    rw [hstep, ih]
    have hent : (mapDelete st.entities m).filter (fun e => !(rest.contains e.name)) =
        st.entities.filter (fun e => !((m :: rest).contains e.name)) := by
      rw [mapDelete, List.filter_filter]
      exact List.filter_congr (fun x _ => by
        simp only [List.contains_cons, Bool.not_or]
        cases hxm : x.name == m <;> cases hxr : rest.contains x.name <;> rfl)
    have hrel : (st.relations.filter (fun r => !(r.«from» == m) && !(r.«to» == m))).filter
          (fun r => !(rest.contains r.«from») && !(rest.contains r.«to»)) =
        st.relations.filter (fun r =>
          !((m :: rest).contains r.«from») && !((m :: rest).contains r.«to»)) := by
      rw [List.filter_filter]
      exact List.filter_congr (fun r _ => by
        simp only [List.contains_cons, Bool.not_or]
        cases h1 : r.«from» == m <;> cases h2 : r.«to» == m <;>
          cases h3 : rest.contains r.«from» <;> cases h4 : rest.contains r.«to» <;> rfl)
    rw [hent, hrel]

/-- C6: for every deleteEntities call and every name in its input list,
the call removes the entity with that name if present (raising no error if
absent: the operation is total) and removes every relation whose from
field or to field equals a listed name, while every entity not named and
every relation whose endpoints both avoid every listed name remain
unchanged in the graph returned by a subsequent readGraph. -/
theorem claim_C6_cascade_delete (st : Store) (names : List String) :
    readGraph (deleteEntities st names) =
      { entities := st.entities.filter (fun e => !(names.contains e.name)),
        relations := st.relations.filter (fun r =>
          !(names.contains r.«from») && !(names.contains r.«to»)) } := by
  rw [deleteEntities_eq names st]
  rfl

/-- C7: searchNodes returns exactly those entities for which the query
occurs case-insensitively as a contiguous substring of the entity name, of
its type label, or of at least one of its observation strings: every such
entity is returned and no entity without such a match is returned. -/
theorem claim_C7_search_membership (st : Store) (q : String) (e : EntityWithType) :
    e ∈ (searchNodes st q).entities ↔
      e ∈ st.entities ∧
        ((jsToLowerCase q).toList <:+: (jsToLowerCase e.name).toList ∨
         (jsToLowerCase q).toList <:+: (jsToLowerCase e.entityType).toList ∨
         ∃ o ∈ e.observations, (jsToLowerCase q).toList <:+: (jsToLowerCase o).toList) := by
  simp [searchNodes, List.mem_filter, entityMatches, strIncludes, List.any_eq_true, or_assoc]

/-- C10: openNodes maps each requested name, in the order given in the
input list, to the stored entity of that name and drops the names with no
stored entity; so the result order follows the input list rather than
store insertion order, and a name that occurs twice in the input yields
its entity twice in the result. -/
theorem claim_C10_openNodes_order (st : Store) (names : List String) :
    (openNodes st names).entities = names.filterMap (fun n => mapGet st.entities n) := by
  induction names with
  | nil => rfl
  | cons n rest ih =>
    rcases h : mapGet st.entities n with _ | e <;>
      simp_all [openNodes, List.filterMap_cons, h]

end CodeMode
